import Mathlib

/-!
Verification of the Newton-Gregory temperature-estimation core
(`interpolasi_newton.py`, with its data-preparation collaborator in
`utils.py` and its caller in `app.py`).

Modelling conventions:
* Python floats are modelled as exact rationals (`ℚ`); the claims under
  study are about the algebra of the algorithm, not about rounding.
* A Python `str` that the core parses is modelled as its character
  sequence (`List Char`); Python's `int(s)` is modelled as an optional
  minus sign followed by decimal digits.
* `np.nan` results and NaN display cells are modelled as `Option.none`.
* Exceptions are modelled with `Except`/`Option` return values.
-/

namespace TempEst

/-- Model of a Python string (a sequence of characters). -/
abbrev PyStr := List Char

/-- Python `s.split(':')`: splits a character sequence at every `':'`;
the empty string yields `[[]]`, matching Python's `''.split(':') == ['']`. -/
def splitOnColon : PyStr → List PyStr
  | [] => [[]]
  | c :: cs =>
    if c = ':' then [] :: splitOnColon cs
    else
      match splitOnColon cs with
      | [] => [[c]]
      | g :: gs => (c :: g) :: gs

/-- Decimal-digit run to a natural number; `none` if empty or any non-digit. -/
def digitsToNat? (cs : PyStr) : Option ℕ :=
  if cs.isEmpty then none
  else
    cs.foldl
      (fun acc? c =>
        acc?.bind fun acc =>
          if c.isDigit then some (acc * 10 + (c.toNat - '0'.toNat)) else none)
      (some 0)

/-- Python `int(s)` on the strings relevant here: an optional leading `'-'`
followed by decimal digits (Python's tolerance for surrounding whitespace,
a `'+'` sign and digit underscores is outside the model). -/
def pyInt? : PyStr → Option ℤ
  | '-' :: cs => (digitsToNat? cs).map fun n => -(n : ℤ)
  | cs => (digitsToNat? cs).map fun n => (n : ℤ)

/-- One prepared observation row: display label `waktu`, decimal time
`waktu_decimal` and temperature `suhu` (the three columns that
`NewtonGregoryInterpolator.__init__` reads from its DataFrame). -/
structure Sample where
  waktu : String
  waktu_decimal : ℚ
  suhu : ℚ
deriving DecidableEq

instance : Inhabited Sample := ⟨⟨"", 0, 0⟩⟩

/-- Element `i` of the forward difference of a list is `l[i+1] - l[i]`
(one pass of the inner loop of `_calculate_forward_differences`). -/
def forwardDiff (l : List ℚ) : List ℚ :=
  List.zipWith (· - ·) l.tail l

/-- Column `j` of the forward-difference table: column `0` is `y`, and
column `j+1` holds the pairwise differences of column `j`
(the outer loop of `_calculate_forward_differences`). -/
def diffCol (y : List ℚ) : ℕ → List ℚ
  | 0 => y
  | j + 1 => forwardDiff (diffCol y j)

/-- Cell `(i, j)` of the `n × n` array built by
`_calculate_forward_differences`: the code zero-initialises the array and
writes column `j` only at rows `i < n - j`, so any cell with `i + j ≥ n`
keeps its initial `0`. -/
def tableCell (y : List ℚ) (i j : ℕ) : ℚ :=
  if i + j < y.length then (diffCol y j).getD i 0 else 0

/-- `NewtonGregoryInterpolator`: holds the sorted sample rows; the derived
attributes (`n`, `x_values`, `y_values`, `h`, `difference_table`) are the
functions below. -/
structure Interpolator where
  data : List Sample
deriving DecidableEq

/-- `self.n = len(self.data)` -/
def Interpolator.n (it : Interpolator) : ℕ := it.data.length

/-- `self.x_values = self.data['waktu_decimal'].values` -/
def Interpolator.x_values (it : Interpolator) : List ℚ :=
  it.data.map (·.waktu_decimal)

/-- `self.y_values = self.data['suhu'].values` -/
def Interpolator.y_values (it : Interpolator) : List ℚ :=
  it.data.map (·.suhu)

/-- `self.h = x[1] - x[0]` when `n > 1`, else the sentinel `1.0`. -/
def Interpolator.h (it : Interpolator) : ℚ :=
  if 1 < it.n then it.x_values.getD 1 0 - it.x_values.getD 0 0 else 1

/-- `self.difference_table` as the cell accessor of the array built at
construction by `_calculate_forward_differences`. -/
def Interpolator.difference_table (it : Interpolator) (i j : ℕ) : ℚ :=
  tableCell it.y_values i j

/-- Insertion of one sample into a time-sorted list (helper for the model
of `sort_values('waktu_decimal')`). -/
def insertByTime (s : Sample) : List Sample → List Sample
  | [] => [s]
  | t :: ts =>
    if s.waktu_decimal ≤ t.waktu_decimal then s :: t :: ts
    else t :: insertByTime s ts

/-- Sorting by `waktu_decimal` (model of pandas `sort_values`, which is an
unstable comparison sort; any comparison sort on the same key is a faithful
model, and the inputs the app feeds it have pairwise-distinct keys). -/
def sortByTime : List Sample → List Sample
  | [] => []
  | s :: ss => insertByTime s (sortByTime ss)

/-- `__init__`: copies the rows, sorts them by `waktu_decimal`, and (per the
accessor functions above) derives `n`, `x_values`, `y_values`, `h` and the
difference table.  Construction is total: no sample-count check occurs. -/
def mkInterpolator (data : List Sample) : Interpolator :=
  ⟨sortByTime data⟩

/-- `_calculate_binomial_coefficient(u, n)`: `1.0` for `n = 0`, otherwise
`result *= (u - i) / (i + 1)` for `i in range(n)`. -/
def binomialCoefficient (u : ℚ) (n : ℕ) : ℚ :=
  if n = 0 then 1
  else (List.range n).foldl (fun (result : ℚ) (i : ℕ) => result * ((u - (i : ℚ)) / ((i : ℚ) + 1))) 1

/-- The two failure modes of `estimate` (both `ValueError` in the source;
the spec names them `InsufficientDataError` and `InvalidTimeFormatError`). -/
inductive EstimateError
  | insufficientData
  | invalidTimeFormat (s : PyStr)
deriving DecidableEq

/-- Lines 88-93 of `estimate`: `hour, minute = map(int, target_time.split(':'))`
then `x_target = hour + minute / 60.0`; any failure is an invalid-format error. -/
def parseTargetTime (s : PyStr) : Option ℚ :=
  match splitOnColon s with
  | [hs, ms] =>
    match pyInt? hs, pyInt? ms with
    | some hour, some minute => some ((hour : ℚ) + (minute : ℚ) / 60)
    | _, _ => none
  | _ => none

/-- Lines 95-103 of `estimate`: index of the sample nearest to the target
(first index wins ties, since only a strictly smaller distance replaces the
running minimum; the running `min_distance` variable always equals the
distance of the current best index, so it is left implicit). -/
def nearestIdx (xs : List ℚ) (t : ℚ) : ℕ :=
  (List.range' 1 (xs.length - 1)).foldl
    (fun best i => if |xs.getD i 0 - t| < |xs.getD best 0 - t| then i else best) 0

/-- Lines 95-112 of `estimate`: the anchor `x0_idx` is the nearest-sample
index, overwritten by the first bracketing interval's left endpoint when the
target lies inside `[x[0], x[-1]]` (if the scan finds no bracket the nearest
index is kept, which is the code's fall-through behaviour). -/
def anchorIndex (it : Interpolator) (t : ℚ) : ℕ :=
  if it.x_values.getD 0 0 ≤ t ∧ t ≤ it.x_values.getD (it.n - 1) 0 then
    ((List.range (it.n - 1)).find? fun i =>
      decide (it.x_values.getD i 0 ≤ t ∧ t ≤ it.x_values.getD (i + 1) 0)).getD
      (nearestIdx it.x_values t)
  else nearestIdx it.x_values t

/-- Lines 114-130 of `estimate`: `result = table[x0_idx, 0]`, then for
`i in range(1, min(n - x0_idx, 6))`, if `x0_idx + i < n`, add
`binomial_coefficient(u, i) * table[x0_idx, i]`. -/
def newtonTerms (it : Interpolator) (x0_idx : ℕ) (u : ℚ) : ℚ :=
  (List.range' 1 (min (it.n - x0_idx) 6 - 1)).foldl
    (fun result i =>
      if x0_idx + i < it.n then
        result + binomialCoefficient u i * it.difference_table x0_idx i
      else result)
    (it.difference_table x0_idx 0)

/-- `NewtonGregoryInterpolator.estimate`.  The method only reads the
interpolator's attributes, so the embedding is a pure function of `it`:
a failing (or succeeding) call cannot change `data`, `h` or the table. -/
def estimate (it : Interpolator) (target_time : PyStr) : Except EstimateError ℚ :=
  if it.n < 2 then .error .insufficientData
  else
    match parseTargetTime target_time with
    | none => .error (.invalidTimeFormat target_time)
    | some x_target =>
      let x0_idx := anchorIndex it x_target
      let u := (x_target - it.x_values.getD x0_idx 0) / it.h
      .ok (newtonTerms it x0_idx u)

/-- `estimate_multiple`: one `(time, value)` entry per input, in order; a
per-element exception becomes a `none` (`np.nan`) value for that element. -/
def estimate_multiple (it : Interpolator) (target_times : List PyStr) :
    List (PyStr × Option ℚ) :=
  target_times.map fun s =>
    match estimate it s with
    | .ok v => (s, some v)
    | .error _ => (s, none)

/-- `get_difference_table`: row `i` carries the display time
`data['waktu'][i]` and the `n` value columns of row `i` of the table, with
`df[col].replace(0, np.nan)` applied to every value column (a cell is shown
as absent exactly when its stored value is `0`). -/
def get_difference_table (it : Interpolator) : List (String × List (Option ℚ)) :=
  (List.range it.n).map fun i =>
    ((it.data.getD i default).waktu,
      (List.range it.n).map fun j =>
        if it.difference_table i j = 0 then none else some (it.difference_table i j))

/-- Status field of `validate_extrapolation_risk`. -/
inductive RiskStatus
  | interpolation
  | extrapolation_backward
  | extrapolation_forward
deriving DecidableEq

/-- Risk field of `validate_extrapolation_risk`. -/
inductive RiskLevel
  | low
  | medium
  | high
deriving DecidableEq

/-- `validate_extrapolation_risk`: parses the target with the same
split-on-colon logic as `estimate` (`none` models the `{'error': ...}`
dictionary), then classifies against `x_values.min()` / `x_values.max()`
with the threshold `distance > self.h * 2`; the human-readable message
strings are not modelled. -/
def validate_extrapolation_risk (it : Interpolator) (target_time : PyStr) :
    Option (RiskStatus × RiskLevel) :=
  match parseTargetTime target_time with
  | none => none
  | some x_target =>
    let x_min := it.x_values.foldl min (it.x_values.getD 0 0)
    let x_max := it.x_values.foldl max (it.x_values.getD 0 0)
    if x_min ≤ x_target ∧ x_target ≤ x_max then
      some (.interpolation, .low)
    else if x_target < x_min then
      some (.extrapolation_backward,
        if it.h * 2 < x_min - x_target then .high else .medium)
    else
      some (.extrapolation_forward,
        if it.h * 2 < x_target - x_max then .high else .medium)

/-- The two rejection modes of `utils.prepare_data` (both `ValueError` in
the source; the spec names the first `EmptyDataError`). -/
inductive PrepError
  | emptyData
  | unreasonableTemperature
deriving DecidableEq

/-- One raw input row for `prepare_data`: the `waktu` cell is either absent
or a display label together with its decimal-hours parse, and the `suhu`
cell is either a number or absent (a missing or non-numeric cell; time-string
parsing itself is `utils.parse_time_to_decimal`, an external collaborator
per the spec, so it is modelled as already performed). -/
structure RawRow where
  waktu : Option (String × ℚ)
  suhu : Option ℚ

/-- The rows of `prepare_data`'s input that survive dropping missing
`waktu`/`suhu` cells (`dropna` plus the numeric coercion of `suhu`). -/
def cleanedRows (rows : List RawRow) : List Sample :=
  rows.filterMap fun r =>
    match r.waktu, r.suhu with
    | some wl, some s => some ⟨wl.1, wl.2, s⟩
    | _, _ => none

/-- Groups a time-sorted sample list into runs of equal `waktu_decimal`,
keeping the first display label of each run and collecting the run's
temperatures (model of `groupby('waktu_decimal').agg(waktu='first', suhu='mean')`,
the mean being taken by the caller below). -/
def groupByDecimal : List Sample → List (String × ℚ × List ℚ)
  | [] => []
  | s :: rest =>
    match groupByDecimal rest with
    | [] => [(s.waktu, s.waktu_decimal, [s.suhu])]
    | (lbl, t, vs) :: gs =>
      if s.waktu_decimal = t then (s.waktu, s.waktu_decimal, s.suhu :: vs) :: gs
      else (s.waktu, s.waktu_decimal, [s.suhu]) :: (lbl, t, vs) :: gs

/-- `utils.prepare_data`: drop rows with missing cells, reject an empty
remainder, reject an implausible temperature range (`min < -50` or
`max > 60`), then sort by decimal time and merge duplicate times by
averaging `suhu` and keeping the first `waktu` label. -/
def prepare_data (rows : List RawRow) : Except PrepError (List Sample) :=
  let cleaned := cleanedRows rows
  if cleaned = [] then .error .emptyData
  else
    let temps := cleaned.map (·.suhu)
    if temps.foldl min (temps.getD 0 0) < -50 ∨ 60 < temps.foldl max (temps.getD 0 0) then
      .error .unreasonableTemperature
    else
      .ok ((groupByDecimal (sortByTime cleaned)).map fun g =>
        ⟨g.1, g.2.1, g.2.2.sum / (g.2.2.length : ℚ)⟩)

/-- One per-term record of the estimation trace (spec §3, `EstimationTrace`):
term index, binomial coefficient, difference value, the term's contribution
and the running total. -/
structure TraceTerm where
  index : ℕ
  coefficient : ℚ
  diffValue : ℚ
  contribution : ℚ
  runningTotal : ℚ
deriving DecidableEq

/-- Modelled from the spec: `estimate_with_details` (the
`getEstimationTrace` operation of spec §4.2, invoked by `app.py` line 149)
is absent from the sources — only its caller survives.  Per the spec it
re-runs exactly `estimate`'s computation while recording per-term state:
the same insufficient-data check, target parsing, anchor selection and
capped term loop, with each executed term appended to the trace. -/
def estimate_with_details (it : Interpolator) (target_time : PyStr) :
    Except EstimateError (List TraceTerm × ℚ) :=
  if it.n < 2 then .error .insufficientData
  else
    match parseTargetTime target_time with
    | none => .error (.invalidTimeFormat target_time)
    | some x_target =>
      let x0_idx := anchorIndex it x_target
      let u := (x_target - it.x_values.getD x0_idx 0) / it.h
      .ok ((List.range' 1 (min (it.n - x0_idx) 6 - 1)).foldl
        (fun st i =>
          if x0_idx + i < it.n then
            let c := binomialCoefficient u i
            let d := it.difference_table x0_idx i
            (st.1 ++ [⟨i, c, d, c * d, st.2 + c * d⟩], st.2 + c * d)
          else st)
        ([], it.difference_table x0_idx 0))

/-- The generalized binomial coefficient exactly as the claim states it:
`B(u,0) = 1`, `B(u,k) = B(u,k-1) * (u-(k-1)) / k`. -/
def specBinom (u : ℚ) : ℕ → ℚ
  | 0 => 1
  | k + 1 => specBinom u k * (u - (k : ℚ)) / ((k : ℚ) + 1)

/-- `i0` is the first index with `x[i0] ≤ t ≤ x[i0+1]` (the claims' anchor
characterisation for in-range targets). -/
def IsFirstBracket (xs : List ℚ) (t : ℚ) (i0 : ℕ) : Prop :=
  i0 + 1 < xs.length ∧ xs.getD i0 0 ≤ t ∧ t ≤ xs.getD (i0 + 1) 0 ∧
    ∀ j < i0, ¬(xs.getD j 0 ≤ t ∧ t ≤ xs.getD (j + 1) 0)

/-- Three-sample series with values `[10, 12, 9]` at times 6, 7, 8
(the concrete fixture named by the claims). -/
def seriesA : Interpolator :=
  ⟨[⟨"06:00", 6, 10⟩, ⟨"07:00", 7, 12⟩, ⟨"08:00", 8, 9⟩]⟩

/-- Three-sample series whose first forward difference is legitimately `0`. -/
def seriesZ : Interpolator :=
  ⟨[⟨"06:00", 6, 5⟩, ⟨"07:00", 7, 5⟩, ⟨"08:00", 8, 7⟩]⟩

/-- One-sample series (estimation must fail, construction must not). -/
def seriesOne : Interpolator :=
  ⟨[⟨"06:00", 6, 10⟩]⟩

/-! ### Basic facts about the derived attributes -/

lemma x_values_length (it : Interpolator) : it.x_values.length = it.n := by
  simp [Interpolator.x_values, Interpolator.n]

lemma y_values_length (it : Interpolator) : it.y_values.length = it.n := by
  simp [Interpolator.y_values, Interpolator.n]

/-! ### The binomial coefficient -/

lemma binomialCoefficient_foldl (u : ℚ) (n : ℕ) :
    binomialCoefficient u n =
      (List.range n).foldl (fun (result : ℚ) (i : ℕ) => result * ((u - (i : ℚ)) / ((i : ℚ) + 1))) 1 := by
  cases n <;> simp [binomialCoefficient]

lemma binomialCoefficient_eq_specBinom (u : ℚ) (n : ℕ) :
    binomialCoefficient u n = specBinom u n := by
  induction n with
  | zero => simp [binomialCoefficient, specBinom]
  | succ k ih =>
    rw [binomialCoefficient_foldl, List.range_succ, List.foldl_append, List.foldl_cons,
      List.foldl_nil, ← binomialCoefficient_foldl, ih, specBinom, mul_div_assoc]

lemma specBinom_zero_of_one_le (k : ℕ) (hk : 1 ≤ k) : specBinom 0 k = 0 := by
  induction k with
  | zero => omega
  | succ m ih =>
    cases Nat.eq_zero_or_pos m with
    | inl h =>
      subst h
      norm_num [specBinom]
    | inr h =>
      rw [specBinom, ih h]
      ring

lemma specBinom_one_one : specBinom 1 1 = 1 := by
  norm_num [specBinom]

lemma specBinom_one_of_two_le (k : ℕ) (hk : 2 ≤ k) : specBinom 1 k = 0 := by
  induction k with
  | zero => omega
  | succ m ih =>
    rcases Nat.lt_or_ge m 2 with h | h
    · have hm : m = 1 := by omega
      subst hm
      norm_num [specBinom]
    · rw [specBinom, ih h]
      ring

/-! ### The difference table -/

lemma length_forwardDiff (l : List ℚ) : (forwardDiff l).length = l.length - 1 := by
  simp [forwardDiff]

lemma length_diffCol (y : List ℚ) (j : ℕ) : (diffCol y j).length = y.length - j := by
  induction j with
  | zero => simp [diffCol]
  | succ m ih =>
    rw [diffCol, length_forwardDiff, ih]
    omega

lemma getD_forwardDiff (l : List ℚ) (i : ℕ) (h : i + 1 < l.length) :
    (forwardDiff l).getD i 0 = l.getD (i + 1) 0 - l.getD i 0 := by
  have hlen : i < (forwardDiff l).length := by rw [length_forwardDiff]; omega
  have htail : i < l.tail.length := by simp [List.length_tail]; omega
  rw [List.getD_eq_getElem _ _ hlen, List.getD_eq_getElem _ _ (by omega : i + 1 < l.length),
    List.getD_eq_getElem _ _ (by omega : i < l.length)]
  simp only [forwardDiff]
  rw [List.getElem_zipWith]
  congr 1
  rw [List.getElem_tail]

lemma tableCell_col_zero (y : List ℚ) (i : ℕ) (h : i < y.length) :
    tableCell y i 0 = y.getD i 0 := by
  simp [tableCell, diffCol, h]

lemma tableCell_of_le (y : List ℚ) (i j : ℕ) (h : y.length ≤ i + j) :
    tableCell y i j = 0 := by
  simp [tableCell]
  omega

lemma tableCell_rec (y : List ℚ) (i j : ℕ) (hj : 1 ≤ j) (hij : i + j + 1 ≤ y.length) :
    tableCell y i j = tableCell y (i + 1) (j - 1) - tableCell y i (j - 1) := by
  obtain ⟨m, rfl⟩ : ∃ m, j = m + 1 := ⟨j - 1, by omega⟩
  have h1 : i + (m + 1) < y.length := by omega
  have h2 : i + 1 + m < y.length := by omega
  have h3 : i + m < y.length := by omega
  simp only [tableCell, if_pos h1, if_pos h2, if_pos h3, Nat.add_sub_cancel]
  rw [diffCol, getD_forwardDiff]
  rw [length_diffCol]
  omega

lemma tableCell_col_one (y : List ℚ) (i : ℕ) (h : i + 1 < y.length) :
    tableCell y i 1 = y.getD (i + 1) 0 - y.getD i 0 := by
  rw [tableCell_rec y i 1 le_rfl (by omega)]
  simp only [Nat.sub_self]
  rw [tableCell_col_zero _ _ (by omega), tableCell_col_zero _ _ (by omega)]

/-! ### Folds over index ranges -/

lemma foldl_add_eq_sum (g : ℕ → ℚ) (l : List ℕ) (init : ℚ) :
    l.foldl (fun a i => a + g i) init = init + (l.map g).sum := by
  induction l generalizing init with
  | nil => simp
  | cons x xs ih => simp [ih, add_assoc]

lemma sum_map_range'_eq_Icc (g : ℕ → ℚ) (m : ℕ) :
    ((List.range' 1 m).map g).sum = ∑ k ∈ Finset.Icc 1 m, g k := by
  induction m with
  | zero => simp
  | succ p ih =>
    rw [List.range'_concat, List.map_append, List.sum_append,
      Finset.sum_Icc_succ_top (by omega : 1 ≤ p + 1)]
    simp [ih]
    congr 1
    omega

lemma find?_range'_eq_some (p : ℕ → Bool) :
    ∀ (m s i0 : ℕ), s ≤ i0 → i0 < s + m → p i0 = true →
      (∀ j, s ≤ j → j < i0 → p j = false) →
      (List.range' s m).find? p = some i0 := by
  intro m
  induction m with
  | zero => intro s i0 h1 h2; omega
  | succ k ih =>
    intro s i0 h1 h2 h3 h4
    rw [List.range'_succ, List.find?_cons]
    rcases Nat.eq_or_lt_of_le h1 with h | h
    · subst h
      rw [h3]
    · rw [h4 s le_rfl h]
      exact ih (s + 1) i0 h (by omega) h3 fun j hj hlt => h4 j (by omega) hlt

/-! ### Unfolding `estimate` and locating the anchor -/

lemma estimate_of_parse (it : Interpolator) (s : PyStr) (t : ℚ)
    (hn : 2 ≤ it.n) (hp : parseTargetTime s = some t) :
    estimate it s =
      .ok (newtonTerms it (anchorIndex it t)
        ((t - it.x_values.getD (anchorIndex it t) 0) / it.h)) := by
  rw [estimate, if_neg (by omega), hp]

lemma anchorIndex_of_first_bracket (it : Interpolator) (t : ℚ) (i0 : ℕ)
    (hlo : it.x_values.getD 0 0 ≤ t) (hhi : t ≤ it.x_values.getD (it.n - 1) 0)
    (hbr : IsFirstBracket it.x_values t i0) :
    anchorIndex it t = i0 := by
  obtain ⟨hb1, hb2, hb3, hb4⟩ := hbr
  rw [x_values_length] at hb1
  rw [anchorIndex, if_pos ⟨hlo, hhi⟩, List.range_eq_range',
    find?_range'_eq_some _ (it.n - 1) 0 i0 (by omega) (by omega)
      (by simpa using And.intro hb2 hb3)
      (fun j _ hlt => by simpa using hb4 j hlt)]
  rfl

lemma foldl_nearest_of_gt (xs : List ℚ) (t : ℚ)
    (hs : List.Pairwise (· < ·) xs) (ht : ∀ x ∈ xs, x < t) :
    ∀ m, m < xs.length →
      (List.range' 1 m).foldl
        (fun best i => if |xs.getD i 0 - t| < |xs.getD best 0 - t| then i else best) 0 = m := by
  intro m
  induction m with
  | zero => simp
  | succ p ih =>
    intro hm
    rw [List.range'_concat, List.foldl_append, ih (by omega)]
    have h1 : 1 + 1 * p = p + 1 := by omega
    rw [h1]
    have hp1 : p + 1 < xs.length := hm
    have hp0 : p < xs.length := by omega
    simp only [List.foldl_cons, List.foldl_nil]
    rw [List.getD_eq_getElem _ _ hp1, List.getD_eq_getElem _ _ hp0]
    have hlt : xs[p] < xs[p + 1] :=
      (List.pairwise_iff_getElem.mp hs) p (p + 1) hp0 hp1 (by omega)
    have ht1 : xs[p + 1] < t := ht _ (xs.getElem_mem hp1)
    have ht0 : xs[p] < t := ht _ (xs.getElem_mem hp0)
    rw [abs_of_neg (by linarith), abs_of_neg (by linarith)]
    rw [if_pos (by linarith)]

lemma nearestIdx_of_gt_last (xs : List ℚ) (t : ℚ) (hne : xs ≠ [])
    (hs : List.Pairwise (· < ·) xs) (ht : ∀ x ∈ xs, x < t) :
    nearestIdx xs t = xs.length - 1 := by
  have hlen : 0 < xs.length := List.length_pos.mpr hne
  exact foldl_nearest_of_gt xs t hs ht (xs.length - 1) (by omega)

lemma foldl_nearest_zero (xs : List ℚ) (t : ℚ)
    (hs : List.Pairwise (· ≤ ·) xs) (ht : t ≤ xs.getD 0 0) :
    ∀ m, m < xs.length →
      (List.range' 1 m).foldl
        (fun best i => if |xs.getD i 0 - t| < |xs.getD best 0 - t| then i else best) 0 = 0 := by
  intro m
  induction m with
  | zero => simp
  | succ p ih =>
    intro hm
    rw [List.range'_concat, List.foldl_append, ih (by omega)]
    have h1 : 1 + 1 * p = p + 1 := by omega
    rw [h1]
    have hp1 : p + 1 < xs.length := hm
    have hp0 : 0 < xs.length := by omega
    simp only [List.foldl_cons, List.foldl_nil]
    rw [List.getD_eq_getElem _ _ hp1, List.getD_eq_getElem _ _ hp0]
    have hle : xs[0] ≤ xs[p + 1] :=
      (List.pairwise_iff_getElem.mp hs) 0 (p + 1) hp0 hp1 (by omega)
    have ht0 : t ≤ xs[0] := by
      rwa [List.getD_eq_getElem _ _ hp0] at ht
    rw [abs_of_nonneg (by linarith), abs_of_nonneg (by linarith)]
    rw [if_neg (by linarith)]

lemma nearestIdx_of_lt_head (xs : List ℚ) (t : ℚ) (hne : xs ≠ [])
    (hs : List.Pairwise (· ≤ ·) xs) (ht : t ≤ xs.getD 0 0) :
    nearestIdx xs t = 0 := by
  have hlen : 0 < xs.length := List.length_pos.mpr hne
  exact foldl_nearest_zero xs t hs ht (xs.length - 1) (by omega)

lemma newtonTerms_eq_sum (it : Interpolator) (x0i : ℕ) (u : ℚ) (hx : x0i < it.n) :
    newtonTerms it x0i u =
      it.difference_table x0i 0 +
        ∑ k ∈ Finset.Icc 1 (min (it.n - x0i) 6 - 1),
          binomialCoefficient u k * it.difference_table x0i k := by
  rw [newtonTerms,
    List.foldl_ext _
      (fun (result : ℚ) (i : ℕ) => result + binomialCoefficient u i * it.difference_table x0i i) _
      (fun a i hi => by
        rw [if_pos]
        have := List.mem_range'_1.mp hi
        omega),
    foldl_add_eq_sum, sum_map_range'_eq_Icc]

/-! ### Concrete target-time fixtures -/

/-- The character sequence of the target string `"06:30"`. -/
def t0630 : PyStr := ['0', '6', ':', '3', '0']

/-- The character sequence of the target string `"07:00"`. -/
def t0700 : PyStr := ['0', '7', ':', '0', '0']

/-- The character sequence of the target string `"08:00"`. -/
def t0800 : PyStr := ['0', '8', ':', '0', '0']

/-- The character sequence of the target string `"10:00"`. -/
def t1000 : PyStr := ['1', '0', ':', '0', '0']

/-- The character sequence of the target string `"23:00"`. -/
def t2300 : PyStr := ['2', '3', ':', '0', '0']

/-- The character sequence of the out-of-24-hour-range string `"25:99"`. -/
def t2599 : PyStr := ['2', '5', ':', '9', '9']

/-- The character sequence of the unparseable string `"bad"`. -/
def tbad : PyStr := ['b', 'a', 'd']

lemma parse_t0630 : parseTargetTime t0630 = some (13 / 2) := by
  have h1 : splitOnColon t0630 = [['0', '6'], ['3', '0']] := by decide
  have h2 : pyInt? ['0', '6'] = some 6 := by decide
  have h3 : pyInt? ['3', '0'] = some 30 := by decide
  simp only [parseTargetTime, h1, h2, h3]
  norm_num

lemma parse_t0700 : parseTargetTime t0700 = some 7 := by
  have h1 : splitOnColon t0700 = [['0', '7'], ['0', '0']] := by decide
  have h2 : pyInt? ['0', '7'] = some 7 := by decide
  have h3 : pyInt? ['0', '0'] = some 0 := by decide
  simp only [parseTargetTime, h1, h2, h3]
  norm_num

lemma parse_t0800 : parseTargetTime t0800 = some 8 := by
  have h1 : splitOnColon t0800 = [['0', '8'], ['0', '0']] := by decide
  have h2 : pyInt? ['0', '8'] = some 8 := by decide
  have h3 : pyInt? ['0', '0'] = some 0 := by decide
  simp only [parseTargetTime, h1, h2, h3]
  norm_num

lemma parse_t1000 : parseTargetTime t1000 = some 10 := by
  have h1 : splitOnColon t1000 = [['1', '0'], ['0', '0']] := by decide
  have h2 : pyInt? ['1', '0'] = some 10 := by decide
  have h3 : pyInt? ['0', '0'] = some 0 := by decide
  simp only [parseTargetTime, h1, h2, h3]
  norm_num

lemma parse_t2300 : parseTargetTime t2300 = some 23 := by
  have h1 : splitOnColon t2300 = [['2', '3'], ['0', '0']] := by decide
  have h2 : pyInt? ['2', '3'] = some 23 := by decide
  have h3 : pyInt? ['0', '0'] = some 0 := by decide
  simp only [parseTargetTime, h1, h2, h3]
  norm_num

lemma parse_t2599 : parseTargetTime t2599 = some (533 / 20) := by
  have h1 : splitOnColon t2599 = [['2', '5'], ['9', '9']] := by decide
  have h2 : pyInt? ['2', '5'] = some 25 := by decide
  have h3 : pyInt? ['9', '9'] = some 99 := by decide
  simp only [parseTargetTime, h1, h2, h3]
  norm_num

lemma parse_tbad : parseTargetTime tbad = none := by
  have h1 : splitOnColon tbad = [['b', 'a', 'd']] := by decide
  simp [parseTargetTime, h1]

lemma seriesA_x : seriesA.x_values = [6, 7, 8] := rfl

lemma seriesA_y : seriesA.y_values = [10, 12, 9] := rfl

lemma seriesA_n : seriesA.n = 3 := rfl

lemma seriesZ_x : seriesZ.x_values = [6, 7, 8] := rfl

lemma seriesZ_y : seriesZ.y_values = [5, 5, 7] := rfl

lemma seriesZ_n : seriesZ.n = 3 := rfl

lemma seriesOne_n : seriesOne.n = 1 := rfl

/-! ### C1: the in-range estimation formula -/

/-- C1: for every series with `n ≥ 2` samples and every target time `t`
with `x[0] ≤ t ≤ x[n-1]`, `estimate` returns
`y[i0] + Σ_{k=1}^{m-1} B(u,k) · Δ^k y[i0]`, where `i0` is the first index
with `x[i0] ≤ t ≤ x[i0+1]`, `u = (t - x[i0]) / h`, `m = min(n - i0, 6)`,
`Δ^k y[i0]` is difference-table cell `(i0, k)`, and `B(u,0) = 1`,
`B(u,k) = B(u,k-1) · (u-(k-1)) / k`. -/
theorem estimate_inrange_newton_formula (it : Interpolator) (s : PyStr) (t : ℚ) (i0 : ℕ)
    (hn : 2 ≤ it.n)
    (hp : parseTargetTime s = some t)
    (hlo : it.x_values.getD 0 0 ≤ t) (hhi : t ≤ it.x_values.getD (it.n - 1) 0)
    (hbr : IsFirstBracket it.x_values t i0) :
    estimate it s =
      .ok (it.difference_table i0 0 +
        ∑ k ∈ Finset.Icc 1 (min (it.n - i0) 6 - 1),
          specBinom ((t - it.x_values.getD i0 0) / it.h) k * it.difference_table i0 k) := by
  have hx : i0 < it.n := by
    have := hbr.1
    rw [x_values_length] at this
    omega
  rw [estimate_of_parse it s t hn hp, anchorIndex_of_first_bracket it t i0 hlo hhi hbr,
    newtonTerms_eq_sum it i0 _ hx]
  simp only [binomialCoefficient_eq_specBinom]

/-- Witness for C1 at the concrete series `[10, 12, 9]` on times 6, 7, 8
and target `"06:30"` (t = 13/2, bracketing anchor 0). -/
theorem estimate_inrange_newton_formula_witness :
    estimate seriesA t0630 =
      .ok (seriesA.difference_table 0 0 +
        ∑ k ∈ Finset.Icc 1 (min (seriesA.n - 0) 6 - 1),
          specBinom ((13 / 2 - seriesA.x_values.getD 0 0) / seriesA.h) k *
            seriesA.difference_table 0 k) :=
  estimate_inrange_newton_formula seriesA t0630 (13 / 2) 0
    (by norm_num [seriesA_n])
    parse_t0630
    (by norm_num [seriesA_x])
    (by norm_num [seriesA_x, seriesA_n])
    ⟨by norm_num [seriesA_x], by norm_num [seriesA_x], by norm_num [seriesA_x],
      fun j hj => absurd hj (by omega)⟩

/-! ### C2: anchor selection for out-of-range targets -/

lemma mem_le_getD_last (xs : List ℚ) (hs : List.Pairwise (· ≤ ·) xs) :
    ∀ x ∈ xs, x ≤ xs.getD (xs.length - 1) 0 := by
  intro x hx
  obtain ⟨i, hi, rfl⟩ := List.mem_iff_getElem.mp hx
  rw [List.getD_eq_getElem _ _ (by omega)]
  rcases Nat.lt_or_ge i (xs.length - 1) with h | h
  · exact (List.pairwise_iff_getElem.mp hs) i (xs.length - 1) hi (by omega) h
  · have hEq : i = xs.length - 1 := by omega
    subst hEq
    exact le_rfl

lemma newtonTerms_at_last (it : Interpolator) (u : ℚ) (hn : 1 ≤ it.n) :
    newtonTerms it (it.n - 1) u = it.y_values.getD (it.n - 1) 0 := by
  rw [newtonTerms]
  have h0 : min (it.n - (it.n - 1)) 6 - 1 = 0 := by omega
  rw [h0]
  simp only [List.range', List.foldl_nil, Interpolator.difference_table]
  exact tableCell_col_zero _ _ (by rw [y_values_length]; omega)

/-- Counterexample to C2 as stated: on the series with times 6, 7, 8 the
target `"10:00"` (t = 10) lies beyond `x[n-1] = 8`, yet the anchor chosen
by the code is the nearest index 2 = n-1, not 0, and `estimate` returns
`y[2] = 9` (an anchor of 0 would give the full degree-2 polynomial). -/
theorem anchor_extrapolation_cex :
    parseTargetTime t1000 = some 10 ∧
    seriesA.x_values.getD (seriesA.n - 1) 0 < 10 ∧
    anchorIndex seriesA 10 = 2 ∧ (2 : ℕ) ≠ 0 ∧
    estimate seriesA t1000 = .ok 9 := by
  have hgt : ∀ x ∈ seriesA.x_values, x < (10 : ℚ) := by
    rw [seriesA_x]
    intro x hx
    fin_cases hx <;> norm_num
  have hsort : List.Pairwise (· < ·) seriesA.x_values := by
    rw [seriesA_x]
    norm_num [List.pairwise_cons]
  have hnear : nearestIdx seriesA.x_values 10 = 2 := by
    have := nearestIdx_of_gt_last seriesA.x_values 10 (by rw [seriesA_x]; simp) hsort hgt
    rwa [x_values_length, seriesA_n] at this
  have hanchor : anchorIndex seriesA 10 = 2 := by
    rw [anchorIndex, if_neg, hnear]
    rintro ⟨-, hc⟩
    rw [seriesA_n, seriesA_x] at hc
    norm_num at hc
  refine ⟨parse_t1000, by norm_num [seriesA_x, seriesA_n], hanchor, by omega, ?_⟩
  rw [estimate_of_parse seriesA t1000 10 (by norm_num [seriesA_n]) parse_t1000, hanchor]
  have h2 : (2 : ℕ) = seriesA.n - 1 := by rw [seriesA_n]
  rw [h2, newtonTerms_at_last seriesA _ (by rw [seriesA_n]; omega)]
  rfl

/-- C2 amended: for a strictly time-sorted series with `n ≥ 2`, an
out-of-range target anchors at the nearest sample, which the bracket scan
never overwrites: `i0 = 0` for `t < x[0]` (backward extrapolation only),
while for `t > x[n-1]` the anchor is `i0 = n-1` and `estimate` returns
`y[n-1]`; the nearest-point search is therefore live code for
extrapolation, overwritten only for in-range targets. -/
theorem anchor_extrapolation (it : Interpolator) (s : PyStr) (t : ℚ)
    (hn : 2 ≤ it.n) (hp : parseTargetTime s = some t)
    (hsort : List.Pairwise (· < ·) it.x_values) :
    (t < it.x_values.getD 0 0 → anchorIndex it t = 0) ∧
    (it.x_values.getD (it.n - 1) 0 < t →
      anchorIndex it t = it.n - 1 ∧
      estimate it s = .ok (it.y_values.getD (it.n - 1) 0)) := by
  have hne : it.x_values ≠ [] := by
    have := x_values_length it
    intro hc
    rw [hc] at this
    simp at this
    omega
  constructor
  · intro hlt
    rw [anchorIndex, if_neg (fun hc => absurd hc.1 (not_le.mpr hlt))]
    exact nearestIdx_of_lt_head it.x_values t hne (hsort.imp le_of_lt) (le_of_lt hlt)
  · intro hgt
    have hall : ∀ x ∈ it.x_values, x < t := by
      intro x hx
      have hle := mem_le_getD_last it.x_values (hsort.imp fun h => le_of_lt h) x hx
      rw [x_values_length] at hle
      linarith
    have hanchor : anchorIndex it t = it.n - 1 := by
      rw [anchorIndex, if_neg (fun hc => absurd hc.2 (not_le.mpr hgt))]
      have := nearestIdx_of_gt_last it.x_values t hne hsort hall
      rwa [x_values_length] at this
    refine ⟨hanchor, ?_⟩
    rw [estimate_of_parse it s t hn hp, hanchor,
      newtonTerms_at_last it _ (by omega)]

/-- Witness for the amended C2 at the concrete series on times 6, 7, 8 and
target `"10:00"` (t = 10 beyond the last sample). -/
theorem anchor_extrapolation_witness :
    ((10 : ℚ) < seriesA.x_values.getD 0 0 → anchorIndex seriesA 10 = 0) ∧
    (seriesA.x_values.getD (seriesA.n - 1) 0 < 10 →
      anchorIndex seriesA 10 = seriesA.n - 1 ∧
      estimate seriesA t1000 = .ok (seriesA.y_values.getD (seriesA.n - 1) 0)) :=
  anchor_extrapolation seriesA t1000 10 (by norm_num [seriesA_n]) parse_t1000
    (by rw [seriesA_x]; norm_num [List.pairwise_cons])

/-! ### C3: correctness of the difference table -/

/-- C3: the table built at construction has `cell (i,0) = y[i]` and, for
`j ≥ 1` with `i + j ≤ n-1`, `cell (i,j) = cell (i+1,j-1) - cell (i,j-1)`;
for the values `[10, 12, 9]` the first differences are `[2, -3]` and the
second difference is `[-5]`. -/
theorem difference_table_construction :
    (∀ (it : Interpolator) (i : ℕ), i < it.n →
      it.difference_table i 0 = it.y_values.getD i 0) ∧
    (∀ (it : Interpolator) (i j : ℕ), 1 ≤ j → i + j + 1 ≤ it.n →
      it.difference_table i j =
        it.difference_table (i + 1) (j - 1) - it.difference_table i (j - 1)) ∧
    (seriesA.difference_table 0 1 = 2 ∧ seriesA.difference_table 1 1 = -3 ∧
      seriesA.difference_table 0 2 = -5) := by
  refine ⟨?_, ?_, ?_, ?_, ?_⟩
  · intro it i hi
    exact tableCell_col_zero _ _ (by rw [y_values_length]; omega)
  · intro it i j hj hij
    exact tableCell_rec _ _ _ hj (by rw [y_values_length]; omega)
  · simp only [Interpolator.difference_table]
    rw [tableCell_col_one _ _ (by rw [seriesA_y]; norm_num), seriesA_y]
    norm_num
  · simp only [Interpolator.difference_table]
    rw [tableCell_col_one _ _ (by rw [seriesA_y]; norm_num), seriesA_y]
    norm_num
  · simp only [Interpolator.difference_table]
    rw [tableCell_rec _ 0 2 (by omega) (by rw [seriesA_y]; norm_num)]
    norm_num
    rw [tableCell_col_one _ _ (by rw [seriesA_y]; norm_num),
      tableCell_col_one _ _ (by rw [seriesA_y]; norm_num), seriesA_y]
    norm_num

/-- Witness for C3 on the concrete series (base column and recurrence). -/
theorem difference_table_construction_witness :
    seriesA.difference_table 0 0 = seriesA.y_values.getD 0 0 ∧
    seriesA.difference_table 0 1 =
      seriesA.difference_table 1 0 - seriesA.difference_table 0 0 :=
  ⟨difference_table_construction.1 seriesA 0 (by norm_num [seriesA_n]),
    difference_table_construction.2.1 seriesA 0 1 le_rfl (by norm_num [seriesA_n])⟩

/-! ### C4: exactness on sample points -/

/-- C4: on a uniformly spaced series (`x[k+1] = x[k] + h` with `h > 0`,
the series invariant of sorted ascending samples) with `n ≥ 2`, estimating
at any sample time `x[i]` returns exactly `y[i]` in exact arithmetic. -/
theorem estimate_exact_on_samples (it : Interpolator) (s : PyStr) (i : ℕ)
    (hn : 2 ≤ it.n) (hpos : 0 < it.h)
    (huni : ∀ k, k + 1 < it.n → it.x_values.getD (k + 1) 0 = it.x_values.getD k 0 + it.h)
    (hi : i < it.n)
    (hp : parseTargetTime s = some (it.x_values.getD i 0)) :
    estimate it s = .ok (it.y_values.getD i 0) := by
  have hxk : ∀ k, k < it.n → it.x_values.getD k 0 = it.x_values.getD 0 0 + (k : ℚ) * it.h := by
    intro k
    induction k with
    | zero =>
      intro _
      norm_num
    | succ m ih =>
      intro hm
      rw [huni m hm, ih (by omega)]
      push_cast
      ring
  have hmono : ∀ a b : ℕ, a < b → b < it.n →
      it.x_values.getD a 0 < it.x_values.getD b 0 := by
    intro a b hab hb
    rw [hxk a (by omega), hxk b hb]
    have hq : (a : ℚ) < (b : ℚ) := by exact_mod_cast hab
    nlinarith [hpos]
  have hlo : it.x_values.getD 0 0 ≤ it.x_values.getD i 0 := by
    rcases Nat.eq_zero_or_pos i with h0 | h0
    · rw [h0]
    · exact le_of_lt (hmono 0 i h0 hi)
  have hhi : it.x_values.getD i 0 ≤ it.x_values.getD (it.n - 1) 0 := by
    rcases Nat.lt_or_ge i (it.n - 1) with h0 | h0
    · exact le_of_lt (hmono i (it.n - 1) h0 (by omega))
    · have hEq : i = it.n - 1 := by omega
      rw [hEq]
  rcases Nat.eq_zero_or_pos i with hz | hpos_i
  · subst hz
    have hbr : IsFirstBracket it.x_values (it.x_values.getD 0 0) 0 :=
      ⟨by rw [x_values_length]; omega, le_rfl, le_of_lt (hmono 0 1 one_pos (by omega)),
        fun j hj => absurd hj (by omega)⟩
    rw [estimate_of_parse it s _ hn hp,
      anchorIndex_of_first_bracket it _ 0 hlo hhi hbr,
      newtonTerms_eq_sum it 0 _ (by omega), sub_self, zero_div]
    have hsum : ∑ k ∈ Finset.Icc 1 (min (it.n - 0) 6 - 1),
        binomialCoefficient 0 k * it.difference_table 0 k = 0 := by
      refine Finset.sum_eq_zero fun k hk => ?_
      rw [binomialCoefficient_eq_specBinom,
        specBinom_zero_of_one_le k (Finset.mem_Icc.mp hk).1, zero_mul]
    rw [hsum, add_zero]
    simp only [Interpolator.difference_table]
    rw [tableCell_col_zero _ _ (by rw [y_values_length]; omega)]
  · obtain ⟨m, rfl⟩ : ∃ m, i = m + 1 := ⟨i - 1, by omega⟩
    have hbr : IsFirstBracket it.x_values (it.x_values.getD (m + 1) 0) m :=
      ⟨by rw [x_values_length]; omega,
        le_of_lt (hmono m (m + 1) (by omega) hi),
        le_rfl,
        fun j hj hc => absurd hc.2 (not_le.mpr (hmono (j + 1) (m + 1) (by omega) hi))⟩
    rw [estimate_of_parse it s _ hn hp,
      anchorIndex_of_first_bracket it _ m hlo hhi hbr,
      newtonTerms_eq_sum it m _ (by omega)]
    have hu : (it.x_values.getD (m + 1) 0 - it.x_values.getD m 0) / it.h = 1 := by
      rw [huni m hi, add_sub_cancel_left, div_self (ne_of_gt hpos)]
    rw [hu]
    have hm1 : 1 ≤ min (it.n - m) 6 - 1 := by omega
    have hsum : ∑ k ∈ Finset.Icc 1 (min (it.n - m) 6 - 1),
        binomialCoefficient 1 k * it.difference_table m k = it.difference_table m 1 := by
      rw [Finset.sum_eq_single_of_mem 1 (Finset.mem_Icc.mpr ⟨le_rfl, hm1⟩)
        (fun k hk hkne => by
          rw [binomialCoefficient_eq_specBinom,
            specBinom_one_of_two_le k (by have := (Finset.mem_Icc.mp hk).1; omega), zero_mul]),
        binomialCoefficient_eq_specBinom, specBinom_one_one, one_mul]
    rw [hsum]
    simp only [Interpolator.difference_table]
    rw [tableCell_col_zero _ _ (by rw [y_values_length]; omega),
      tableCell_col_one _ _ (by rw [y_values_length]; omega)]
    congr 1
    ring

/-- Witness for C4: `estimate("07:00")` on the uniform series with times
6, 7, 8 returns the sample value `y[1] = 12`. -/
theorem estimate_exact_on_samples_witness :
    estimate seriesA t0700 = .ok (seriesA.y_values.getD 1 0) :=
  estimate_exact_on_samples seriesA t0700 1
    (by norm_num [seriesA_n])
    (by norm_num [Interpolator.h, seriesA_x, seriesA_n])
    (by
      intro k hk
      rw [seriesA_n] at hk
      have hk2 : k = 0 ∨ k = 1 := by omega
      rcases hk2 with rfl | rfl <;> norm_num [seriesA_x, Interpolator.h, seriesA_n])
    (by norm_num [seriesA_n])
    parse_t0700

/-! ### C5: the insufficient-data and empty-data policies -/

lemma length_insertByTime (s : Sample) (l : List Sample) :
    (insertByTime s l).length = l.length + 1 := by
  induction l with
  | nil => rfl
  | cons t ts ih =>
    rw [insertByTime]
    split
    · simp
    · simp [ih]

lemma length_sortByTime (l : List Sample) : (sortByTime l).length = l.length := by
  induction l with
  | nil => rfl
  | cons s ss ih =>
    rw [sortByTime, length_insertByTime, ih]
    simp

/-- C5: `estimate` fails with the insufficient-data error exactly when the
series has fewer than 2 samples, and it does so for every target string
(the count check precedes parsing); interpolator construction is total and
keeps all rows even for 0 or 1 samples; data preparation rejects with the
empty-data error exactly when no valid rows remain after cleaning. -/
theorem insufficient_and_empty_data_policy :
    (∀ (it : Interpolator) (s : PyStr),
      estimate it s = .error .insufficientData ↔ it.n < 2) ∧
    (∀ data : List Sample, (mkInterpolator data).n = data.length) ∧
    (∀ rows : List RawRow,
      prepare_data rows = .error .emptyData ↔ cleanedRows rows = []) := by
  refine ⟨?_, ?_, ?_⟩
  · intro it s
    constructor
    · intro h
      by_contra hc
      rw [estimate, if_neg hc] at h
      split at h
      · exact absurd h (by simp)
      · exact absurd h (by simp)
    · intro h
      rw [estimate, if_pos h]
  · intro data
    simp only [mkInterpolator, Interpolator.n]
    exact length_sortByTime data
  · intro rows
    by_cases hc : cleanedRows rows = []
    · simp [prepare_data, hc]
    · constructor
      · intro h
        exfalso
        simp only [prepare_data, if_neg hc] at h
        split at h <;> simp at h
      · intro h
        exact absurd h hc

/-- Witness for C5: the one-sample series fails with the insufficient-data
error even on an unparseable target, two concrete constructions succeed
with all rows kept, and `prepare_data` on no usable rows is the empty-data
error. -/
theorem insufficient_and_empty_data_policy_witness :
    (estimate seriesOne tbad = .error .insufficientData ↔ seriesOne.n < 2) ∧
    (mkInterpolator [⟨"06:00", 6, 10⟩]).n = [(⟨"06:00", 6, 10⟩ : Sample)].length ∧
    (prepare_data [⟨none, some 20⟩] = .error .emptyData ↔
      cleanedRows [⟨none, some 20⟩] = []) :=
  ⟨insufficient_and_empty_data_policy.1 seriesOne tbad,
    insufficient_and_empty_data_policy.2.1 [⟨"06:00", 6, 10⟩],
    insufficient_and_empty_data_policy.2.2 [⟨none, some 20⟩]⟩

/-! ### C6: batch estimation -/

/-- C6: batch estimation returns exactly one `(time, value)` entry per
input element, in input order; a failing element yields an absent value
for that element without aborting the batch, and every non-failing
element's value equals an individual `estimate` call on it. -/
theorem estimate_multiple_batch (it : Interpolator) (ts : List PyStr) (i : ℕ)
    (hi : i < ts.length) :
    (estimate_multiple it ts).length = ts.length ∧
    ((estimate_multiple it ts).getD i ([], none)).1 = ts.getD i [] ∧
    (∀ v : ℚ, ((estimate_multiple it ts).getD i ([], none)).2 = some v ↔
      estimate it (ts.getD i []) = .ok v) ∧
    (((estimate_multiple it ts).getD i ([], none)).2 = none ↔
      ∃ e, estimate it (ts.getD i []) = .error e) := by
  have hlen : (estimate_multiple it ts).length = ts.length := by
    simp [estimate_multiple]
  have hget : (estimate_multiple it ts).getD i ([], none) =
      (match estimate it (ts.getD i []) with
        | .ok v => (ts.getD i [], some v)
        | .error _ => (ts.getD i [], none)) := by
    rw [List.getD_eq_getElem _ _ (by omega), List.getD_eq_getElem _ _ hi]
    simp only [estimate_multiple, List.getElem_map]
  refine ⟨hlen, ?_, ?_, ?_⟩
  · rw [hget]
    cases estimate it (ts.getD i []) <;> rfl
  · intro v
    rw [hget]
    cases hre : estimate it (ts.getD i []) with
    | ok w => simp
    | error e => simp
  · rw [hget]
    cases hre : estimate it (ts.getD i []) with
    | ok w => simp
    | error e => exact iff_of_true rfl ⟨e, rfl⟩

/-- Witness for C6: the batch `["08:00", "bad", "10:00"]` on the concrete
series, inspected at the failing middle element. -/
theorem estimate_multiple_batch_witness :
    (estimate_multiple seriesA [t0800, tbad, t1000]).length = [t0800, tbad, t1000].length ∧
    ((estimate_multiple seriesA [t0800, tbad, t1000]).getD 1 ([], none)).1 =
      [t0800, tbad, t1000].getD 1 [] ∧
    (∀ v : ℚ, ((estimate_multiple seriesA [t0800, tbad, t1000]).getD 1 ([], none)).2 = some v ↔
      estimate seriesA ([t0800, tbad, t1000].getD 1 []) = .ok v) ∧
    (((estimate_multiple seriesA [t0800, tbad, t1000]).getD 1 ([], none)).2 = none ↔
      ∃ e, estimate seriesA ([t0800, tbad, t1000].getD 1 []) = .error e) :=
  estimate_multiple_batch seriesA [t0800, tbad, t1000] 1 (by norm_num)

/-! ### C7: trace/estimate equivalence -/

lemma trace_fold_snd (it : Interpolator) (x0i : ℕ) (u : ℚ) (l : List ℕ) :
    ∀ (tr : List TraceTerm) (acc : ℚ),
      (l.foldl
        (fun st i =>
          if x0i + i < it.n then
            (st.1 ++ [⟨i, binomialCoefficient u i, it.difference_table x0i i,
              binomialCoefficient u i * it.difference_table x0i i,
              st.2 + binomialCoefficient u i * it.difference_table x0i i⟩],
              st.2 + binomialCoefficient u i * it.difference_table x0i i)
          else st)
        (tr, acc)).2 =
      l.foldl
        (fun result i =>
          if x0i + i < it.n then
            result + binomialCoefficient u i * it.difference_table x0i i
          else result)
        acc := by
  induction l with
  | nil =>
    intro tr acc
    rfl
  | cons a as ih =>
    intro tr acc
    simp only [List.foldl_cons]
    by_cases hc : x0i + a < it.n
    · rw [if_pos hc, if_pos hc]
      exact ih _ _
    · rw [if_neg hc, if_neg hc]
      exact ih _ _

/-- C7: the per-term estimation trace (`estimate_with_details`, modelled
from the spec since only its caller survives in the sources) is the same
algorithm as `estimate`: dropping the recorded trace from its result gives
exactly `estimate`'s result, errors included, for every series and target. -/
theorem trace_estimate_equivalence (it : Interpolator) (s : PyStr) :
    Except.map Prod.snd (estimate_with_details it s) = estimate it s := by
  rw [estimate_with_details, estimate]
  by_cases hn : it.n < 2
  · rw [if_pos hn, if_pos hn]
    rfl
  · rw [if_neg hn, if_neg hn]
    cases hp : parseTargetTime s with
    | none => rfl
    | some t =>
      simp only [Except.map]
      congr 1
      exact trace_fold_snd it (anchorIndex it t)
        ((t - it.x_values.getD (anchorIndex it t) 0) / it.h) _ [] _

/-! ### C8: the display difference table -/

lemma get_difference_table_row (it : Interpolator) (i : ℕ) (hi : i < it.n) :
    (get_difference_table it).getD i default =
      ((it.data.getD i default).waktu,
        (List.range it.n).map fun j =>
          if it.difference_table i j = 0 then none
          else some (it.difference_table i j)) := by
  have hlen : i < (get_difference_table it).length := by
    simp [get_difference_table]
    omega
  rw [List.getD_eq_getElem _ _ hlen]
  simp only [get_difference_table, List.getElem_map, List.getElem_range]

lemma get_difference_table_cell (it : Interpolator) (i j : ℕ)
    (hi : i < it.n) (hj : j < it.n) :
    ((get_difference_table it).getD i default).2.getD j (some 0) =
      if it.difference_table i j = 0 then none
      else some (it.difference_table i j) := by
  rw [get_difference_table_row it i hi,
    List.getD_eq_getElem _ _ (by simpa using hj)]
  simp only [List.getElem_map, List.getElem_range]

/-- Counterexample to C8 as stated: on the series with values `[5, 5, 7]`
the cell `(0, 1)` is a defined cell (`0 + 1 < n = 3`) whose computed value
is the legitimately zero first difference `5 - 5 = 0`, yet the display
table shows it as absent, because the code blanks every zero cell. -/
theorem difference_table_display_cex :
    0 + 1 < seriesZ.n ∧
    seriesZ.difference_table 0 1 = 0 ∧
    ((get_difference_table seriesZ).getD 0 default).2.getD 1 (some 0) = none := by
  have h0 : seriesZ.difference_table 0 1 = 0 := by
    simp only [Interpolator.difference_table]
    rw [tableCell_col_one _ _ (by rw [seriesZ_y]; norm_num), seriesZ_y]
    norm_num
  refine ⟨by rw [seriesZ_n]; omega, h0, ?_⟩
  rw [get_difference_table_cell seriesZ 0 1 (by rw [seriesZ_n]; omega)
    (by rw [seriesZ_n]; omega), if_pos h0]

/-- C8 amended: the display table marks as absent exactly the cells whose
stored value is `0` — this blanks every unused cell with `i + j ≥ n`
(zero-initialised), but it also blanks any defined cell whose computed
difference or sample value is legitimately `0`; each row is annotated with
the original display time. -/
theorem difference_table_display (it : Interpolator) (i j : ℕ)
    (hi : i < it.n) (hj : j < it.n) :
    ((get_difference_table it).getD i default).1 = (it.data.getD i default).waktu ∧
    (((get_difference_table it).getD i default).2.getD j (some 0) = none ↔
      it.difference_table i j = 0) ∧
    (it.n ≤ i + j → ((get_difference_table it).getD i default).2.getD j (some 0) = none) := by
  refine ⟨by rw [get_difference_table_row it i hi], ?_, ?_⟩
  · rw [get_difference_table_cell it i j hi hj]
    split
    · exact iff_of_true rfl ‹_›
    · exact iff_of_false (by simp) ‹_›
  · intro hle
    have h0 : it.difference_table i j = 0 := by
      simp only [Interpolator.difference_table]
      exact tableCell_of_le _ _ _ (by rw [y_values_length]; omega)
    rw [get_difference_table_cell it i j hi hj, if_pos h0]

/-- Witness for the amended C8 on the concrete series: row label, the
blank-iff-zero cell behaviour, and an unused cell shown absent. -/
theorem difference_table_display_witness :
    ((get_difference_table seriesA).getD 0 default).1 =
      (seriesA.data.getD 0 default).waktu ∧
    (((get_difference_table seriesA).getD 0 default).2.getD 2 (some 0) = none ↔
      seriesA.difference_table 0 2 = 0) ∧
    (seriesA.n ≤ 1 + 2 →
      ((get_difference_table seriesA).getD 1 default).2.getD 2 (some 0) = none) :=
  ⟨(difference_table_display seriesA 0 2 (by norm_num [seriesA_n]) (by norm_num [seriesA_n])).1,
    (difference_table_display seriesA 0 2 (by norm_num [seriesA_n]) (by norm_num [seriesA_n])).2.1,
    (difference_table_display seriesA 1 2 (by norm_num [seriesA_n]) (by norm_num [seriesA_n])).2.2⟩

/-! ### C9: extrapolation-risk classification -/

lemma getD_zero_le_mem (xs : List ℚ) (hs : List.Pairwise (· ≤ ·) xs) :
    ∀ x ∈ xs, xs.getD 0 0 ≤ x := by
  intro x hx
  obtain ⟨i, hi, rfl⟩ := List.mem_iff_getElem.mp hx
  rw [List.getD_eq_getElem _ _ (by omega)]
  rcases Nat.eq_zero_or_pos i with h | h
  · subst h
    exact le_rfl
  · exact (List.pairwise_iff_getElem.mp hs) 0 i (by omega) hi h

lemma foldl_min_of_le (l : List ℚ) : ∀ a : ℚ, (∀ x ∈ l, a ≤ x) → l.foldl min a = a := by
  induction l with
  | nil =>
    intro a _
    rfl
  | cons x xs ih =>
    intro a h
    rw [List.foldl_cons, min_eq_left (h x (by simp))]
    exact ih a fun y hy => h y (by simp [hy])

lemma foldl_max_of_sorted (l : List ℚ) :
    ∀ a : ℚ, List.Pairwise (· ≤ ·) (a :: l) →
      l.foldl max a = (a :: l).getD l.length 0 := by
  induction l with
  | nil =>
    intro a _
    rfl
  | cons b bs ih =>
    intro a hp
    have hab : a ≤ b := (List.pairwise_cons.mp hp).1 b (by simp)
    rw [List.foldl_cons, max_eq_right hab, ih b hp.of_cons]
    have hlen : (b :: bs).length = bs.length + 1 := rfl
    rw [hlen, List.getD_cons_succ]

lemma foldl_min_whole (xs : List ℚ) (hs : List.Pairwise (· ≤ ·) xs) :
    xs.foldl min (xs.getD 0 0) = xs.getD 0 0 :=
  foldl_min_of_le xs _ (getD_zero_le_mem xs hs)

lemma foldl_max_whole (xs : List ℚ) (hne : xs ≠ []) (hs : List.Pairwise (· ≤ ·) xs) :
    xs.foldl max (xs.getD 0 0) = xs.getD (xs.length - 1) 0 := by
  cases xs with
  | nil => exact absurd rfl hne
  | cons a l =>
    rw [List.getD_cons_zero, List.foldl_cons, max_self, foldl_max_of_sorted l a hs]
    have hl : (a :: l).length - 1 = l.length := by simp
    rw [hl]

/-- C9: for every parseable target, the risk classification is
within-range/low when `x[0] ≤ t ≤ x[n-1]`, backward/forward extrapolation
otherwise, with risk high iff the distance to the nearer boundary exceeds
`2·h` and medium otherwise.  The classifier is a pure function separate
from `estimate` (whose definition never consults it), so it can neither
block nor alter estimation. -/
theorem extrapolation_risk_classification (it : Interpolator) (s : PyStr) (t : ℚ)
    (hn : 0 < it.n) (hp : parseTargetTime s = some t)
    (hsort : List.Pairwise (· ≤ ·) it.x_values) :
    (it.x_values.getD 0 0 ≤ t ∧ t ≤ it.x_values.getD (it.n - 1) 0 →
      validate_extrapolation_risk it s = some (.interpolation, .low)) ∧
    (t < it.x_values.getD 0 0 →
      validate_extrapolation_risk it s = some (.extrapolation_backward,
        if it.h * 2 < it.x_values.getD 0 0 - t then .high else .medium)) ∧
    (it.x_values.getD (it.n - 1) 0 < t →
      validate_extrapolation_risk it s = some (.extrapolation_forward,
        if it.h * 2 < t - it.x_values.getD (it.n - 1) 0 then .high else .medium)) := by
  have hne : it.x_values ≠ [] := by
    have hl := x_values_length it
    intro hc
    rw [hc] at hl
    simp at hl
    omega
  have hmin : it.x_values.foldl min (it.x_values.getD 0 0) = it.x_values.getD 0 0 :=
    foldl_min_whole _ hsort
  have hmax : it.x_values.foldl max (it.x_values.getD 0 0) =
      it.x_values.getD (it.n - 1) 0 := by
    rw [← x_values_length it]
    exact foldl_max_whole _ hne hsort
  have hx0le : it.x_values.getD 0 0 ≤ it.x_values.getD (it.n - 1) 0 := by
    have hmem : it.x_values.getD (it.n - 1) 0 ∈ it.x_values := by
      rw [List.getD_eq_getElem _ _ (by rw [x_values_length]; omega)]
      exact List.getElem_mem _
    exact getD_zero_le_mem it.x_values hsort _ hmem
  refine ⟨?_, ?_, ?_⟩
  · rintro ⟨h1, h2⟩
    simp only [validate_extrapolation_risk, hp, hmin, hmax]
    rw [if_pos ⟨h1, h2⟩]
  · intro hlt
    simp only [validate_extrapolation_risk, hp, hmin, hmax]
    rw [if_neg (fun hc => absurd hc.1 (not_le.mpr hlt)), if_pos hlt]
  · intro hgt
    simp only [validate_extrapolation_risk, hp, hmin, hmax]
    rw [if_neg (fun hc => absurd hc.2 (not_le.mpr hgt)),
      if_neg (not_lt.mpr (le_trans hx0le (le_of_lt hgt)))]

/-- Witness for C9: target `"23:00"` (t = 23) on the series spanning
times 6-8 with `h = 1`: forward extrapolation at distance `15 > 2`,
classified high risk. -/
theorem extrapolation_risk_classification_witness :
    (seriesA.x_values.getD 0 0 ≤ 23 ∧ (23 : ℚ) ≤ seriesA.x_values.getD (seriesA.n - 1) 0 →
      validate_extrapolation_risk seriesA t2300 = some (.interpolation, .low)) ∧
    ((23 : ℚ) < seriesA.x_values.getD 0 0 →
      validate_extrapolation_risk seriesA t2300 = some (.extrapolation_backward,
        if seriesA.h * 2 < seriesA.x_values.getD 0 0 - 23 then .high else .medium)) ∧
    (seriesA.x_values.getD (seriesA.n - 1) 0 < 23 →
      validate_extrapolation_risk seriesA t2300 = some (.extrapolation_forward,
        if seriesA.h * 2 < 23 - seriesA.x_values.getD (seriesA.n - 1) 0 then .high
        else .medium)) :=
  extrapolation_risk_classification seriesA t2300 23
    (by norm_num [seriesA_n]) parse_t2300
    (by rw [seriesA_x]; norm_num [List.pairwise_cons])

/-! ### C10: target-time parsing in `estimate` -/

/-- C10: with at least 2 samples, `estimate` fails with the invalid-format
error exactly when the target does not split on `':'` into two integer
parts; any string that does split that way parses to `hour + minute/60` and
is estimated, with no 24-hour range validation — `"25:99"` parses to
`533/20` hours.  The embedding of `estimate` is a pure function of the
interpolator, so a failed call cannot change the samples, the spacing or
the difference table. -/
theorem target_time_parsing_contract (it : Interpolator) (s : PyStr) (hn : 2 ≤ it.n) :
    (estimate it s = .error (.invalidTimeFormat s) ↔ parseTargetTime s = none) ∧
    (∀ (hs ms : PyStr) (hour minute : ℤ), splitOnColon s = [hs, ms] →
      pyInt? hs = some hour → pyInt? ms = some minute →
      parseTargetTime s = some ((hour : ℚ) + (minute : ℚ) / 60)) ∧
    (∀ t : ℚ, parseTargetTime s = some t → ∃ v, estimate it s = .ok v) ∧
    parseTargetTime t2599 = some (533 / 20) := by
  refine ⟨?_, ?_, ?_, parse_t2599⟩
  · rw [estimate, if_neg (by omega)]
    cases hp : parseTargetTime s with
    | none => simp
    | some t => simp
  · intro hs ms hour minute h1 h2 h3
    simp only [parseTargetTime, h1, h2, h3]
  · intro t hp
    rw [estimate, if_neg (by omega), hp]
    exact ⟨_, rfl⟩

/-- Witness for C10: on the concrete 3-sample series, the out-of-range
target `"25:99"` is parsed (no range validation) and estimated. -/
theorem target_time_parsing_contract_witness :
    (estimate seriesA t2599 = .error (.invalidTimeFormat t2599) ↔
      parseTargetTime t2599 = none) ∧
    parseTargetTime t2599 = some (533 / 20) ∧
    (∃ v, estimate seriesA t2599 = .ok v) :=
  ⟨(target_time_parsing_contract seriesA t2599 (by norm_num [seriesA_n])).1,
    (target_time_parsing_contract seriesA t2599 (by norm_num [seriesA_n])).2.2.2,
    (target_time_parsing_contract seriesA t2599 (by norm_num [seriesA_n])).2.2.1
      (533 / 20) parse_t2599⟩

end TempEst
